import Mathlib

/-!
# Verification of the idp-cloudgenie-backend tool-orchestration engine

Shallow embedding of the Go sources of `deepakvbansode/idp-cloudgenie-backend`:
the TTL result cache, deterministic cache-key derivation, the bounded
orchestration loop (`internal/handlers/orchestration.go`), and the stdio MCP
protocol client (`internal/mcp`, reproduced in `internal/models/api.go`).

Modelling conventions:
* Go `time.Time` values are modelled as `Nat` instants; `time.Since(t)` at the
  current instant `now` is `now - t` (durations are never negative in the Go
  code paths modelled here).
* Go `map[string]interface{}` argument maps are modelled as association lists
  `List (String × JVal)`; a Go map has no duplicate keys, so well-formedness
  hypotheses require `Nodup` on the keys where it matters.
* `interface{}` JSON-ready values are modelled by the inductive `JVal`; the
  constructor `JVal.unser` stands for a Go value that `json.Marshal` rejects
  (a channel, a function, `math.Inf`, ...), which makes serialization fail.
* External collaborators (the AI provider and the MCP client) are modelled as
  oracle functions inside an `Env` record; the orchestration loop is a pure
  function of the oracle answers, mirroring the Go control flow line by line.
-/

set_option maxRecDepth 4000

namespace CloudGenie

/-! ## JSON values (Go `interface{}` trees accepted by `encoding/json`) -/

/-- A Go value held in a `map[string]interface{}` argument map.  `unser` marks
a value that `encoding/json.Marshal` rejects (func, chan, `math.Inf`, ...);
the `tag` only serves to distinguish different such values. -/
inductive JVal : Type where
  | str (s : String)
  | num (n : Int)
  | bool (b : Bool)
  | null
  | arr (elems : List JVal)
  | obj (fields : List (String × JVal))
  | unser (tag : Nat)

/-- Lower-case hex digit, as produced by Go's `%x` formatting. -/
def hexDigit (n : Nat) : Char :=
  if n < 10 then Char.ofNat (48 + n) else Char.ofNat (87 + n)

/-- Four-digit hex rendering used in `\u00XX` JSON escapes. -/
def hex4 (n : Nat) : String :=
  String.mk [hexDigit (n / 4096 % 16), hexDigit (n / 256 % 16),
             hexDigit (n / 16 % 16), hexDigit (n % 16)]

/-- Escaping of one character inside a JSON string, following Go
`encoding/json` (HTML-safe escaping of `<`, `>`, `&` included). -/
def escapeChar (c : Char) : String :=
  if c = '"' then "\\\""
  else if c = '\\' then "\\\\"
  else if c = '\n' then "\\n"
  else if c = '\r' then "\\r"
  else if c = '\t' then "\\t"
  else if c = '<' ∨ c = '>' ∨ c = '&' then "\\u" ++ hex4 c.toNat
  else if c.toNat < 32 then "\\u" ++ hex4 c.toNat
  else String.singleton c

/-- A JSON string literal with Go `encoding/json` escaping. -/
def quoteString (s : String) : String :=
  "\"" ++ String.join (s.data.map escapeChar) ++ "\""

/-- Sort object fields by key, as Go `encoding/json.Marshal` sorts the keys of
a `map[string]...` before emitting them.  The second component carries the
already-rendered `"key":value` text of the field. -/
def sortFields (l : List (String × String)) : List (String × String) :=
  List.insertionSort (fun p q => p.1 ≤ q.1) l

/-- Comma-join of rendered JSON items. -/
def joinComma (parts : List String) : String :=
  String.intercalate "," parts

mutual

/-- `encoding/json.Marshal` on a Go value: `none` models a marshalling error
(an `unser` value anywhere inside).  Object keys are emitted in sorted order,
exactly as Go sorts `map` keys; each field is rendered independently of the
order, so rendering first and sorting the rendered fields afterwards produces
the same text as Go's sort-then-render. -/
def serJVal : JVal → Option String
  | .str s => some (quoteString s)
  | .num n => some (toString n)
  | .bool b => some (if b then "true" else "false")
  | .null => some "null"
  | .arr es =>
      match serElems es with
      | none => none
      | some parts => some ("[" ++ joinComma parts ++ "]")
  | .obj fs =>
      match serFields fs with
      | none => none
      | some kvs =>
          some ("\x7b" ++ joinComma ((sortFields kvs).map Prod.snd) ++ "\x7d")
  | .unser _ => none

/-- Serialize the elements of a JSON array, failing if any element fails. -/
def serElems : List JVal → Option (List String)
  | [] => some []
  | v :: tl =>
      match serJVal v with
      | none => none
      | some s =>
          match serElems tl with
          | none => none
          | some rest => some (s :: rest)

/-- Serialize the fields of a JSON object (in the given order), keeping the
key alongside the rendered `"key":value` text so the caller can sort. -/
def serFields : List (String × JVal) → Option (List (String × String))
  | [] => some []
  | (k, v) :: tl =>
      match serJVal v with
      | none => none
      | some s =>
          match serFields tl with
          | none => none
          | some rest => some ((k, quoteString k ++ ":" ++ s) :: rest)

end

/-- `json.Marshal(args)` for a tool argument map `map[string]interface{}`. -/
def jsonMarshalObj (l : List (String × JVal)) : Option String :=
  serJVal (.obj l)

/-! ## SHA-256 (as used by `crypto/sha256.Sum256` in `generateCacheKey`) -/

/-- Truncation to a 32-bit word. -/
def w32 (x : Nat) : Nat := x % 4294967296

/-- 32-bit right rotation. -/
def rotr (n x : Nat) : Nat := w32 ((x >>> n) ||| (x <<< (32 - n)))

/-- SHA-256 small sigma 0. -/
def sSig0 (x : Nat) : Nat := (rotr 7 x) ^^^ (rotr 18 x) ^^^ (x >>> 3)

/-- SHA-256 small sigma 1. -/
def sSig1 (x : Nat) : Nat := (rotr 17 x) ^^^ (rotr 19 x) ^^^ (x >>> 10)

/-- SHA-256 big sigma 0. -/
def bSig0 (x : Nat) : Nat := (rotr 2 x) ^^^ (rotr 13 x) ^^^ (rotr 22 x)

/-- SHA-256 big sigma 1. -/
def bSig1 (x : Nat) : Nat := (rotr 6 x) ^^^ (rotr 11 x) ^^^ (rotr 25 x)

/-- The 64 SHA-256 round constants (FIPS 180-4, written in decimal). -/
def sha256K : List Nat :=
  [1116352408, 1899447441, 3049323471, 3921009573, 961987163, 1508970993,
   2453635748, 2870763221, 3624381080, 310598401, 607225278, 1426881987,
   1925078388, 2162078206, 2614888103, 3248222580, 3835390401, 4022224774,
   264347078, 604807628, 770255983, 1249150122, 1555081692, 1996064986,
   2554220882, 2821834349, 2952996808, 3210313671, 3336571891, 3584528711,
   113926993, 338241895, 666307205, 773529912, 1294757372, 1396182291,
   1695183700, 1986661051, 2177026350, 2456956037, 2730485921, 2820302411,
   3259730800, 3345764771, 3516065817, 3600352804, 4094571909, 275423344,
   430227734, 506948616, 659060556, 883997877, 958139571, 1322822218,
   1537002063, 1747873779, 1955562222, 2024104815, 2227730452, 2361852424,
   2428436474, 2756734187, 3204031479, 3329325298]

/-- SHA-256 initial hash state (FIPS 180-4, written in decimal). -/
def sha256H0 : List Nat :=
  [1779033703, 3144134277, 1013904242, 2773480762,
   1359893119, 2600822924, 528734635, 1541459225]

/-- Big-endian packing of bytes into 32-bit words. -/
def bytesToWords : List Nat → List Nat
  | b0 :: b1 :: b2 :: b3 :: rest =>
      (((b0 * 256 + b1) * 256 + b2) * 256 + b3) :: bytesToWords rest
  | _ => []

/-- Extend the 16 message words of a block to the 64-entry schedule. -/
def schedule (ws : List Nat) : List Nat :=
  (List.range 48).foldl
    (fun w i =>
      w ++ [w32 (sSig1 (w.getD (i + 14) 0) + w.getD (i + 9) 0 +
                 sSig0 (w.getD (i + 1) 0) + w.getD i 0)])
    ws

/-- One SHA-256 compression round on the 8-word working state. -/
def sha256Round (st : List Nat) (wi ki : Nat) : List Nat :=
  match st with
  | [a, b, c, d, e, f, g, h] =>
      let ch := (e &&& f) ^^^ ((4294967295 ^^^ e) &&& g)
      let maj := (a &&& b) ^^^ (a &&& c) ^^^ (b &&& c)
      let t1 := w32 (h + bSig1 e + ch + ki + wi)
      let t2 := w32 (bSig0 a + maj)
      [w32 (t1 + t2), a, b, c, w32 (d + t1), e, f, g]
  | other => other

/-- Compress one 64-byte block into the running hash state. -/
def processBlock (h : List Nat) (block : List Nat) : List Nat :=
  let ws := schedule (bytesToWords block)
  let final := (ws.zip sha256K).foldl (fun st p => sha256Round st p.1 p.2) h
  (h.zip final).map (fun p => w32 (p.1 + p.2))

/-- Split a byte list into 64-byte blocks; the fuel argument (any bound on the
number of blocks, e.g. the list length) keeps the recursion structural so that
the definition evaluates inside the kernel. -/
def chunks64 : Nat → List Nat → List (List Nat)
  | 0, _ => []
  | _ + 1, [] => []
  | fuel + 1, l => l.take 64 :: chunks64 fuel (l.drop 64)

/-- SHA-256 padding: `0x80`, zeros to 56 mod 64, then the 64-bit bit length. -/
def padMessage (msg : List Nat) : List Nat :=
  let bitLen := msg.length * 8
  let zeros := (119 - msg.length % 64) % 64
  msg ++ [128] ++ List.replicate zeros 0 ++
    [bitLen >>> 56 % 256, bitLen >>> 48 % 256, bitLen >>> 40 % 256,
     bitLen >>> 32 % 256, bitLen >>> 24 % 256, bitLen >>> 16 % 256,
     bitLen >>> 8 % 256, bitLen % 256]

/-- `crypto/sha256.Sum256` over a byte list, yielding the 32 digest bytes. -/
def sha256Bytes (msg : List Nat) : List Nat :=
  let padded := padMessage msg
  let blocks := chunks64 padded.length padded
  let hFinal := blocks.foldl processBlock sha256H0
  (hFinal.map (fun w => [w >>> 24 % 256, w >>> 16 % 256, w >>> 8 % 256, w % 256])).flatten

/-- UTF-8 encoding of one character (Go strings are UTF-8 byte sequences). -/
def utf8Bytes (c : Char) : List Nat :=
  let n := c.toNat
  if n < 128 then [n]
  else if n < 2048 then [192 + n / 64, 128 + n % 64]
  else if n < 65536 then [224 + n / 4096, 128 + n / 64 % 64, 128 + n % 64]
  else [240 + n / 262144, 128 + n / 4096 % 64, 128 + n / 64 % 64, 128 + n % 64]

/-- The bytes of a Go string. -/
def strBytes (s : String) : List Nat :=
  (s.data.map utf8Bytes).flatten

/-- Lower-case hex rendering of a byte list (Go `%x`). -/
def hexBytes (bs : List Nat) : String :=
  String.join (bs.map (fun b => String.mk [hexDigit (b / 16 % 16), hexDigit (b % 16)]))

/-- `generateCacheKey` from `internal/handlers/orchestration.go`: serialize the
argument map to JSON; on failure fall back to the bare tool name; otherwise
append the first 8 bytes of `sha256(toolName ++ ":" ++ argsJSON)` in hex. -/
def generateCacheKey (toolName : String) (args : List (String × JVal)) : String :=
  match jsonMarshalObj args with
  | none => toolName
  | some argsJSON =>
      toolName ++ ":" ++
        hexBytes ((sha256Bytes (strBytes (toolName ++ ":" ++ argsJSON))).take 8)

/-! ## Result cache (`ResultCache` in `internal/handlers/orchestration.go`) -/

/-- `MaxToolIterations` constant. -/
def MaxToolIterations : Nat := 5

/-- A stored cache entry (`CachedResult`). -/
structure CachedResult where
  content : String
  timestamp : Nat
  isError : Bool
deriving DecidableEq, Repr

/-- The TTL result cache.  The Go `map[string]*CachedResult` is modelled as an
association list; the mutex only serializes access and has no effect on the
sequential semantics modelled here. -/
structure ResultCache where
  store : List (String × CachedResult)
  ttl : Nat
deriving DecidableEq, Repr

/-- A fresh cache (`NewResultCache`), before any `Set`. -/
def mkCache (ttl : Nat) : ResultCache := { store := [], ttl := ttl }

/-- `ResultCache.Get`: return the entry only if present and not older than the
TTL at the current instant `now`; the expiry re-check is independent of the
background sweep. -/
def ResultCache.get (c : ResultCache) (now : Nat) (key : String) : Option CachedResult :=
  match c.store.lookup key with
  | none => none
  | some result =>
      if c.ttl < now - result.timestamp then none else some result

/-- Go map assignment `c.store[key] = v`: replace the binding if present,
otherwise add it. -/
def setStore (s : List (String × CachedResult)) (k : String) (v : CachedResult) :
    List (String × CachedResult) :=
  match s with
  | [] => [(k, v)]
  | (k', v') :: tl => if k' = k then (k, v) :: tl else (k', v') :: setStore tl k v

/-- `ResultCache.Set`: store an entry stamped with the current instant. -/
def ResultCache.set (c : ResultCache) (now : Nat) (key content : String)
    (isError : Bool) : ResultCache :=
  { c with store := setStore c.store key ⟨content, now, isError⟩ }

/-- One pass of the background sweep (`cleanupExpired` loop body): delete every
entry strictly older than the TTL at sweep instant `now`. -/
def ResultCache.cleanupExpired (c : ResultCache) (now : Nat) : ResultCache :=
  { c with store := c.store.filter (fun p => decide (now - p.2.timestamp ≤ c.ttl)) }

/-- `ResultCache.Stats`. -/
def ResultCache.stats (c : ResultCache) : List (String × Nat) :=
  [("total_entries", c.store.length)]

/-- Executable form of the cache invariant "no stored entry is an error". -/
def noErrorEntries (c : ResultCache) : Bool :=
  c.store.all (fun p => !p.2.isError)

/-! ## Data model of the orchestration loop -/

/-- An MCP tool descriptor; the loop reads only the name/description (and the
catalog length for the metadata). -/
structure MCPTool where
  name : String
  description : String
deriving DecidableEq, Repr

/-- `ai.ToolCall`: an invocation produced by the Adapter. -/
structure AIToolCall where
  id : String
  name : String
  arguments : List (String × JVal)

/-- `ai.ToolResult`: a per-invocation result fed back to the Adapter. -/
structure AIToolResult where
  toolCallID : String
  content : String
  isError : Bool
deriving DecidableEq, Repr

/-- `ai.Message`: one conversation turn. -/
structure Message where
  role : String
  content : String
  toolCalls : List AIToolCall
  toolResults : List AIToolResult

/-- `ai.Response`: the Adapter's answer (token usage is not read by the loop
and is omitted). -/
structure AIResponse where
  content : String
  toolCalls : List AIToolCall
  finishReason : String

/-- `models.ToolCall` as returned to the HTTP caller. -/
structure ToolCall where
  id : String
  name : String
  arguments : List (String × JVal)

/-- `models.ToolResult` as returned to the HTTP caller. -/
structure ToolResult where
  toolCallID : String
  name : String
  content : String
  isError : Bool
deriving DecidableEq, Repr

/-- A metadata value in the `map[string]interface{}` metadata of the response. -/
inductive MVal : Type where
  | nat (n : Nat)
  | str (s : String)
  | bool (b : Bool)
  | stats (entries : List (String × Nat))
deriving DecidableEq, Repr

/-- `models.ChatRequest`; `ProcessPrompt` reads only the prompt. -/
structure ChatRequest where
  prompt : String
  provider : String
  model : String

/-- `models.ChatResponse`. -/
structure ChatResponse where
  response : String
  toolCalls : List ToolCall
  toolResults : List ToolResult
  metadata : List (String × MVal)

/-- A content part of an MCP `CallToolResult` (`text` or a typed blob). -/
inductive MCPContent : Type where
  | text (s : String)
  | other (v : JVal)

/-- `mcp.CallToolResult`: ordered content parts plus the tool-level error flag. -/
structure CallToolResult where
  content : List MCPContent
  isError : Bool

/-- The text of a `TextContent` part, `none` for other content types. -/
def contentText : MCPContent → Option String
  | .text s => some s
  | .other _ => none

/-- JSON form of one content part (shape from the protocol contract:
`{type, text|blob}`), used only by `formatToolResult`'s fallback marshal. -/
def mcpContentToJVal : MCPContent → JVal
  | .text s => .obj [("type", .str "text"), ("text", .str s)]
  | .other v => v

/-- JSON form of a `CallToolResult` (`{content: [...], isError: bool}` per the
protocol contract), used by `formatToolResult`'s fallback marshal. -/
def callToolResultToJVal (r : CallToolResult) : JVal :=
  .obj [("content", .arr (r.content.map mcpContentToJVal)),
        ("isError", .bool r.isError)]

/-- `json.MarshalIndent(textParts, "", "  ")` on a string slice. -/
def marshalIndentStrings (parts : List String) : String :=
  match parts with
  | [] => "[]"
  | _ =>
      "[\n" ++ String.intercalate ",\n" (parts.map (fun s => "  " ++ quoteString s)) ++ "\n]"

/-- `formatToolResult` from `internal/handlers/orchestration.go`. -/
def formatToolResult (result : CallToolResult) : String :=
  if result.content.length = 0 then
    "Tool executed successfully with no output"
  else
    let textParts := result.content.filterMap contentText
    if textParts.length = 0 then
      match serJVal (callToolResultToJVal result) with
      | none => "Tool result could not be formatted"
      | some s => s
    else if textParts.length = 1 then
      textParts.headD ""
    else
      marshalIndentStrings textParts

/-- `formatToolResultsForPrompt` from `internal/handlers/orchestration.go`. -/
def formatToolResultsForPrompt (results : List AIToolResult) : String :=
  if results.length = 0 then ""
  else
    (results.foldl
      (fun prompt result =>
        if result.isError then
          prompt ++ "❌ Error: " ++ result.content ++ "\n\n"
        else
          prompt ++ "✓ Success: " ++ result.content ++ "\n\n")
      "Tool execution results:\n\n")
    ++ "Please analyze these results and provide a response to the user."

/-- The collaborators of one orchestration call: the Adapter
(`aiProvider.Chat` plus `GetProviderName`) and the protocol client
(`mcpClient.CallTool`), modelled as oracle functions, together with the
read-only tool catalog discovered at service construction. -/
structure Env where
  chat : String → List MCPTool → List Message → Except String AIResponse
  callTool : String → List (String × JVal) → Except String CallToolResult
  providerName : String
  tools : List MCPTool

/-- The mutable locals of one iteration of the tool-execution loop. -/
structure ExecState where
  toolResults : List AIToolResult
  allToolCalls : List ToolCall
  allToolResults : List ToolResult
  cacheHits : Nat
  cacheMisses : Nat
  cache : ResultCache

/-- The body of `for _, toolCall := range aiResponse.ToolCalls` for a single
invocation (lines 194-268 of `orchestration.go`): cache lookup, on hit reuse
the entry; on miss call the tool, absorbing a transport error into an error
result (note: the error path appends no `ToolCall` record — it `continue`s
past that append), and cache a non-error result. -/
def execOne (env : Env) (now : Nat) (toolCall : AIToolCall) (st : ExecState) : ExecState :=
  let cacheKey := generateCacheKey toolCall.name toolCall.arguments
  match st.cache.get now cacheKey with
  | some cached =>
      { st with
        cacheHits := st.cacheHits + 1,
        toolResults := st.toolResults ++ [⟨toolCall.id, cached.content, cached.isError⟩],
        allToolCalls := st.allToolCalls ++ [⟨toolCall.id, toolCall.name, toolCall.arguments⟩],
        allToolResults :=
          st.allToolResults ++ [⟨toolCall.id, toolCall.name, cached.content, cached.isError⟩] }
  | none =>
      match env.callTool toolCall.name toolCall.arguments with
      | .error err =>
          let errMsg := "Error calling tool " ++ toolCall.name ++ ": " ++ err
          { st with
            cacheMisses := st.cacheMisses + 1,
            toolResults := st.toolResults ++ [⟨toolCall.id, errMsg, true⟩],
            allToolResults := st.allToolResults ++ [⟨toolCall.id, toolCall.name, errMsg, true⟩] }
      | .ok mcpResult =>
          let resultContent := formatToolResult mcpResult
          let isError := mcpResult.isError
          let cache' :=
            if isError then st.cache else st.cache.set now cacheKey resultContent isError
          { st with
            cacheMisses := st.cacheMisses + 1,
            cache := cache',
            toolResults := st.toolResults ++ [⟨toolCall.id, resultContent, isError⟩],
            allToolCalls := st.allToolCalls ++ [⟨toolCall.id, toolCall.name, toolCall.arguments⟩],
            allToolResults :=
              st.allToolResults ++ [⟨toolCall.id, toolCall.name, resultContent, isError⟩] }

/-- Resolve all invocations of one iteration, left to right. -/
def execToolCalls (env : Env) (now : Nat) : List AIToolCall → ExecState → ExecState
  | [], st => st
  | toolCall :: rest, st => execToolCalls env now rest (execOne env now toolCall st)

/-- Fixed advisory message of the iteration-ceiling outcome. -/
def maxIterationsMessage : String :=
  "Maximum tool execution iterations reached. Please try breaking down your request."

/-- The metadata map of the `Done` outcome. -/
def doneMetadata (iteration : Nat) (finishReason provider : String)
    (toolsAvailable hits misses : Nat) (cache : ResultCache) : List (String × MVal) :=
  [("iterations", .nat iteration), ("finish_reason", .str finishReason),
   ("provider", .str provider), ("tools_available", .nat toolsAvailable),
   ("cache_hits", .nat hits), ("cache_misses", .nat misses),
   ("cache_stats", .stats cache.stats)]

/-- The metadata map of the iteration-ceiling outcome. -/
def maxMetadata (iteration : Nat) (provider : String)
    (toolsAvailable hits misses : Nat) (cache : ResultCache) : List (String × MVal) :=
  [("iterations", .nat iteration), ("max_reached", .bool true),
   ("provider", .str provider), ("tools_available", .nat toolsAvailable),
   ("cache_hits", .nat hits), ("cache_misses", .nat misses),
   ("cache_stats", .stats cache.stats)]

/-- The `for iteration < MaxToolIterations` loop of `ProcessPrompt`.  `fuel`
is `MaxToolIterations - iteration`; each unfolding is one loop pass: bump the
iteration counter, consult the Adapter (its failure aborts the call), append
the assistant turn, and either finish (`Done`) when no invocations were
produced or resolve all invocations and loop.  Running out of fuel is the
iteration-ceiling return after the loop. -/
def runLoop (env : Env) (now : Nat) :
    Nat → Nat → List Message → List ToolCall → List ToolResult → Nat → Nat →
    String → ResultCache → Except String (ChatResponse × ResultCache)
  | 0, iteration, _history, allCalls, allResults, hits, misses, _prompt, cache =>
      .ok ({ response := maxIterationsMessage,
             toolCalls := allCalls, toolResults := allResults,
             metadata := maxMetadata iteration env.providerName env.tools.length
                           hits misses cache }, cache)
  | fuel + 1, iteration, history, allCalls, allResults, hits, misses, prompt, cache =>
      match env.chat prompt env.tools history with
      | .error e => .error ("AI provider error: " ++ e)
      | .ok aiResponse =>
          let history1 := history ++
            [{ role := "assistant", content := aiResponse.content,
               toolCalls := [], toolResults := [] }]
          if aiResponse.toolCalls.isEmpty then
            .ok ({ response := aiResponse.content,
                   toolCalls := allCalls, toolResults := allResults,
                   metadata := doneMetadata (iteration + 1) aiResponse.finishReason
                                 env.providerName env.tools.length hits misses cache }, cache)
          else
            let st := execToolCalls env now aiResponse.toolCalls
              { toolResults := [], allToolCalls := allCalls, allToolResults := allResults,
                cacheHits := hits, cacheMisses := misses, cache := cache }
            let history2 := history1 ++
              [{ role := "assistant", content := "", toolCalls := [],
                 toolResults := st.toolResults }]
            runLoop env now fuel (iteration + 1) history2 st.allToolCalls st.allToolResults
              st.cacheHits st.cacheMisses (formatToolResultsForPrompt st.toolResults) st.cache

/-- `ProcessPrompt`: run the loop from a fresh conversation.  The service's
cache persists across calls, so the current cache state is an argument and the
updated state is returned alongside the response. -/
def processPrompt (env : Env) (now : Nat) (cache : ResultCache)
    (request : ChatRequest) : Except String (ChatResponse × ResultCache) :=
  runLoop env now MaxToolIterations 0 [] [] [] 0 0 request.prompt cache

/-! ## Stdio MCP protocol client (`internal/mcp` stdio variant)

The JSON-RPC struct declarations (`JSONRPCRequest`, `JSONRPCResponse`,
`ToolCallResult`, ...) live in a types file that is not part of the sources;
their shapes are reconstructed from their use in `call`/`readResponses` and
from the protocol contract (`tools/call` response `{content, isError}`). -/

/-- The `Error` member of a JSON-RPC response. -/
structure JSONRPCError where
  code : Int
  message : String
deriving DecidableEq, Repr

/-- The dynamic type of a decoded `response.ID` (`interface{}` in Go).
`readResponses` converts `float64`/`int64`/`int` to `int64` and skips any
other type. -/
inductive RPCId : Type where
  | num (n : Int)
  | other
deriving DecidableEq, Repr

/-- One framed line arriving on the reader: either undecodable input
(`json.Unmarshal` fails — logged and skipped) or a decoded response carrying
an optional id, an optional error member, and a result payload. -/
inductive InMsg : Type where
  | malformed
  | valid (id : Option RPCId) (rpcError : Option JSONRPCError) (result : JVal)

/-- The payload delivered on a pending call's channel. -/
structure Delivery where
  id : Int
  rpcError : Option JSONRPCError
  result : JVal

/-- `readResponses`: drain the framed input stream, delivering each response
whose id is in the pending-call table to that caller's channel; malformed
lines, id-less and unknown-id-type responses are skipped.  When the stream
ends (the transport closed), the loop exits, logs any scanner error, and
returns — the pending table is NOT touched, so no further deliveries happen.
The returned list is the sequence of channel deliveries performed. -/
def readResponses (pending : List Int) : List InMsg → List Delivery
  | [] => []
  | .malformed :: rest => readResponses pending rest
  | .valid none _ _ :: rest => readResponses pending rest
  | .valid (some .other) _ _ :: rest => readResponses pending rest
  | .valid (some (.num n)) rpcError result :: rest =>
      if pending.contains n then
        ⟨n, rpcError, result⟩ :: readResponses pending rest
      else
        readResponses pending rest

/-- A caller blocked in `call` on `<-responseChan` is unblocked exactly when a
delivery for its id was performed by the reader. -/
def callerUnblocked (deliveries : List Delivery) (id : Int) : Bool :=
  deliveries.any (fun d => d.id == id)

/-- The answer of the transport to one dispatched request: an I/O failure on
write, or the correlated decoded response. -/
inductive RPCOutcome : Type where
  | ioError (msg : String)
  | response (rpcError : Option JSONRPCError) (result : JVal)

/-- The `call` method: dispatch one request to the transport and wait for the
correlated response; a JSON-RPC `Error` member becomes a Go error. -/
def clientCall (rpc : String → JVal → RPCOutcome) (method : String)
    (params : JVal) : Except String JVal :=
  match rpc method params with
  | .ioError m => .error ("failed to write request: " ++ m)
  | .response (some e) _ =>
      .error ("JSON-RPC error " ++ toString e.code ++ ": " ++ e.message)
  | .response none result => .ok result

/-- `ToolCallParams{name, arguments}` as the JSON it is marshalled to. -/
def encodeToolCallParams (name : String) (args : List (String × JVal)) : JVal :=
  .obj [("name", .str name), ("arguments", .obj args)]

/-- Decode one content part: `{type:"text", text:s}` is a `TextContent`. -/
def decodeContent (v : JVal) : MCPContent :=
  match v with
  | .obj fields =>
      match fields.lookup "type", fields.lookup "text" with
      | some (.str "text"), some (.str s) => .text s
      | _, _ => .other (.obj fields)
  | v => .other v

/-- `json.Unmarshal` of the `tools/call` result into `ToolCallResult`. -/
def decodeToolCallResult (v : JVal) : Option CallToolResult :=
  match v with
  | .obj fields =>
      let isErr := match fields.lookup "isError" with
        | some (.bool b) => b
        | _ => false
      let content := match fields.lookup "content" with
        | some (.arr l) => l.map decodeContent
        | _ => []
      some ⟨content, isErr⟩
  | _ => none

/-- The dispatch part of `Client.CallTool` (stdio variant): marshal the
params, perform the `tools/call` roundtrip, wrap any failure as
`failed to call tool <name>: ...`, decode the result.  Note that the tool
name is NOT looked up in the client's cached catalog at any point. -/
def dispatchToolCall (rpc : String → JVal → RPCOutcome) (name : String)
    (args : List (String × JVal)) : Except String CallToolResult :=
  match clientCall rpc "tools/call" (encodeToolCallParams name args) with
  | .error e => .error ("failed to call tool " ++ name ++ ": " ++ e)
  | .ok result =>
      match decodeToolCallResult result with
      | none => .error "failed to unmarshal tool call result"
      | some r => .ok r

/-- The client state read by `CallTool`: the `initialized` flag and the tool
catalog cached by `ListTools`. -/
structure StdioClient where
  initialized : Bool
  tools : List MCPTool

/-- `Client.CallTool` (stdio variant): auto-initialize if needed (`init` is
the outcome of the `Initialize()` handshake, modelled as an oracle), then
dispatch — with no validation of `name` against the cached catalog. -/
def callToolStdio (init : Except String Unit) (rpc : String → JVal → RPCOutcome)
    (client : StdioClient) (name : String) (args : List (String × JVal)) :
    Except String CallToolResult :=
  match (if client.initialized then Except.ok () else init) with
  | .error e => .error e
  | .ok _ => dispatchToolCall rpc name args

/-! ## Store lemmas -/

theorem lookup_cons (k0 : String) (v0 : CachedResult) (tl : List (String × CachedResult))
    (q : String) :
    List.lookup q ((k0, v0) :: tl) = if q = k0 then some v0 else List.lookup q tl := by
  by_cases h : q = k0
  · subst h
    simp [List.lookup]
  · have hb : (q == k0) = false := beq_eq_false_iff_ne.2 h
    simp [List.lookup, hb, h]

theorem setStore_cons_self (k : String) (v0 v : CachedResult)
    (tl : List (String × CachedResult)) :
    setStore ((k, v0) :: tl) k v = (k, v) :: tl := by
  simp [setStore]

theorem setStore_cons_ne {k0 k : String} (h : k0 ≠ k) (v0 v : CachedResult)
    (tl : List (String × CachedResult)) :
    setStore ((k0, v0) :: tl) k v = (k0, v0) :: setStore tl k v := by
  simp [setStore, h]

theorem lookup_setStore (s : List (String × CachedResult)) (k q : String) (v : CachedResult) :
    (setStore s k v).lookup q = if q = k then some v else s.lookup q := by
  induction s with
  | nil =>
      simp only [setStore, lookup_cons, List.lookup_nil]
  | cons hd tl ih =>
      obtain ⟨k0, v0⟩ := hd
      by_cases h0 : k0 = k
      · subst h0
        rw [setStore_cons_self, lookup_cons, lookup_cons]
        by_cases h : q = k0 <;> simp [h]
      · rw [setStore_cons_ne h0, lookup_cons, ih, lookup_cons]
        by_cases h : q = k0 <;> by_cases h2 : q = k <;> simp_all

theorem lookup_some_mem {s : List (String × CachedResult)} {k : String} {v : CachedResult}
    (h : s.lookup k = some v) : ∃ q, (q, v) ∈ s := by
  induction s with
  | nil => simp [List.lookup] at h
  | cons hd tl ih =>
      obtain ⟨k0, v0⟩ := hd
      rw [lookup_cons] at h
      by_cases hq : k = k0
      · rw [if_pos hq] at h
        injection h with h
        exact ⟨k0, by rw [← h]; exact List.mem_cons_self _ _⟩
      · rw [if_neg hq] at h
        obtain ⟨q, hmem⟩ := ih h
        exact ⟨q, by simp [hmem]⟩

theorem lookup_eq_none_of_not_mem {s : List (String × CachedResult)} {k : String}
    (h : k ∉ s.map Prod.fst) : s.lookup k = none := by
  induction s with
  | nil => simp [List.lookup]
  | cons hd tl ih =>
      obtain ⟨k0, v0⟩ := hd
      simp only [List.map_cons, List.mem_cons] at h
      push_neg at h
      rw [lookup_cons, if_neg h.1]
      exact ih h.2

theorem lookup_filter_nodup {s : List (String × CachedResult)}
    (hnd : (s.map Prod.fst).Nodup) (p : String × CachedResult → Bool) (k : String) :
    (s.filter p).lookup k =
      match s.lookup k with
      | none => none
      | some v => if p (k, v) then some v else none := by
  induction s with
  | nil => simp [List.lookup]
  | cons hd tl ih =>
      obtain ⟨k0, v0⟩ := hd
      simp only [List.map_cons, List.nodup_cons] at hnd
      by_cases hq : k = k0
      · subst hq
        cases hp : p (k, v0) with
        | true => simp [List.filter_cons, hp, lookup_cons]
        | false =>
            simp only [List.filter_cons, hp, Bool.false_eq_true, if_false, lookup_cons,
              if_pos rfl]
            have hout : k ∉ (tl.filter p).map Prod.fst := by
              intro hmem
              rcases List.mem_map.1 hmem with ⟨pr, hpr, hfst⟩
              exact hnd.1 (List.mem_map.2 ⟨pr, List.mem_of_mem_filter hpr, hfst⟩)
            simp [lookup_eq_none_of_not_mem hout, hp]
      · cases hp : p (k0, v0) with
        | true => simp [List.filter_cons, hp, lookup_cons, hq, ih hnd.2]
        | false => simp [List.filter_cons, hp, lookup_cons, hq, ih hnd.2]

theorem mem_setStore {s : List (String × CachedResult)} {k : String} {v : CachedResult}
    {x : String × CachedResult} (hx : x ∈ setStore s k v) : x = (k, v) ∨ x ∈ s := by
  induction s with
  | nil => simpa [setStore] using hx
  | cons hd tl ih =>
      obtain ⟨k0, v0⟩ := hd
      by_cases h0 : k0 = k
      · subst h0
        rw [setStore_cons_self] at hx
        rcases List.mem_cons.1 hx with h | h
        · exact .inl h
        · exact .inr (List.mem_cons_of_mem _ h)
      · rw [setStore_cons_ne h0] at hx
        rcases List.mem_cons.1 hx with h | h
        · exact .inr (by simp [h])
        · rcases ih h with h' | h'
          · exact .inl h'
          · exact .inr (by simp [h'])

theorem all_setStore {s : List (String × CachedResult)} {k : String} {v : CachedResult}
    {p : String × CachedResult → Bool} (hs : s.all p = true) (hv : p (k, v) = true) :
    (setStore s k v).all p = true := by
  rw [List.all_eq_true] at hs ⊢
  intro x hx
  rcases mem_setStore hx with h | h
  · rw [h]; exact hv
  · exact hs x h

theorem noErrorEntries_set {c : ResultCache} {now : Nat} {k content : String}
    (h : noErrorEntries c = true) :
    noErrorEntries (c.set now k content false) = true := by
  exact all_setStore h rfl

theorem get_isError_false {c : ResultCache} {now : Nat} {k : String} {e : CachedResult}
    (hc : noErrorEntries c = true) (hget : c.get now k = some e) : e.isError = false := by
  unfold ResultCache.get at hget
  cases hlk : c.store.lookup k with
  | none => simp [hlk] at hget
  | some r =>
      simp only [hlk] at hget
      by_cases hexp : c.ttl < now - r.timestamp
      · simp [hexp] at hget
      · simp only [hexp, if_neg, if_false] at hget
        have hre : r = e := by
          by_contra hne
          simp [hne] at hget
        subst hre
        obtain ⟨q, hmem⟩ := lookup_some_mem hlk
        have := (List.all_eq_true.1 hc) _ hmem
        simpa using this

/-! ## Loop preservation of the no-error-entry invariant -/

theorem noErrorEntries_execOne {env : Env} {now : Nat} {tc : AIToolCall} {st : ExecState}
    (h : noErrorEntries st.cache = true) :
    noErrorEntries (execOne env now tc st).cache = true := by
  simp only [execOne]
  cases hget : st.cache.get now (generateCacheKey tc.name tc.arguments) with
  | some cached => exact h
  | none =>
      cases hct : env.callTool tc.name tc.arguments with
      | error e => exact h
      | ok r =>
          cases hie : r.isError with
          | false =>
              simp only [hie, Bool.false_eq_true, if_false]
              exact noErrorEntries_set h
          | true =>
              simp only [hie, if_true]
              exact h

theorem noErrorEntries_execToolCalls {env : Env} {now : Nat} (tcs : List AIToolCall)
    {st : ExecState} (h : noErrorEntries st.cache = true) :
    noErrorEntries (execToolCalls env now tcs st).cache = true := by
  induction tcs generalizing st with
  | nil => simpa [execToolCalls] using h
  | cons tc rest ih =>
      simp only [execToolCalls]
      exact ih (noErrorEntries_execOne h)

theorem noErrorEntries_runLoop {env : Env} {now : Nat} :
    ∀ (fuel iteration : Nat) (history : List Message) (allCalls : List ToolCall)
      (allResults : List ToolResult) (hits misses : Nat) (prompt : String)
      (cache : ResultCache) (out : ChatResponse × ResultCache),
      noErrorEntries cache = true →
      runLoop env now fuel iteration history allCalls allResults hits misses prompt cache
        = .ok out →
      noErrorEntries out.2 = true := by
  intro fuel
  induction fuel with
  | zero =>
      intro iteration history allCalls allResults hits misses prompt cache out hc hrun
      simp only [runLoop, Except.ok.injEq] at hrun
      rw [← hrun]
      exact hc
  | succ fuel ih =>
      intro iteration history allCalls allResults hits misses prompt cache out hc hrun
      simp only [runLoop] at hrun
      cases hchat : env.chat prompt env.tools history with
      | error e => simp [hchat] at hrun
      | ok aiResponse =>
          simp only [hchat] at hrun
          cases htc : aiResponse.toolCalls.isEmpty with
          | true =>
              simp only [htc, if_true, Except.ok.injEq] at hrun
              rw [← hrun]
              exact hc
          | false =>
              simp only [htc, Bool.false_eq_true, if_false] at hrun
              exact ih _ _ _ _ _ _ _ _ _ (noErrorEntries_execToolCalls _ hc) hrun

/-- C2: no cached result with `isError = true` is ever retrievable via `Get`
over any sequence of orchestration operations: the cache starts empty with no
error entries; resolving any invocation list (the only place the loop calls
`Set`, and it does so only for `isError = false` results — the transport-error
path never stores) preserves the invariant; so does a whole `ProcessPrompt`
call and the background sweep; and from an invariant-satisfying cache, `Get`
can only return entries with `isError = false`. -/
theorem c2_cache_error_exclusion :
    (∀ ttl, noErrorEntries (mkCache ttl) = true) ∧
    (∀ (env : Env) (now : Nat) (tcs : List AIToolCall) (st : ExecState),
        noErrorEntries st.cache = true →
        noErrorEntries (execToolCalls env now tcs st).cache = true) ∧
    (∀ (env : Env) (now : Nat) (cache : ResultCache) (req : ChatRequest)
        (out : ChatResponse × ResultCache),
        noErrorEntries cache = true → processPrompt env now cache req = .ok out →
        noErrorEntries out.2 = true) ∧
    (∀ (c : ResultCache) (now : Nat),
        noErrorEntries c = true → noErrorEntries (c.cleanupExpired now) = true) ∧
    (∀ (c : ResultCache) (now : Nat) (k : String) (e : CachedResult),
        noErrorEntries c = true → c.get now k = some e → e.isError = false) := by
  refine ⟨fun ttl => rfl, fun env now tcs st h => noErrorEntries_execToolCalls tcs h,
          fun env now cache req out hc hrun =>
            noErrorEntries_runLoop _ _ _ _ _ _ _ _ _ _ hc hrun,
          fun c now hc => ?_, fun c now k e => get_isError_false⟩
  rw [noErrorEntries, List.all_eq_true] at hc ⊢
  intro x hx
  exact hc x (List.mem_of_mem_filter hx)

/-- Concrete instantiation of `c2_cache_error_exclusion`: a cache holding one
non-error entry satisfies the invariant, and `Get` on it indeed yields an
entry with `isError = false`. -/
theorem c2_witness :
    noErrorEntries ⟨[("k", ⟨"v", 5, false⟩)], 300⟩ = true ∧
    (⟨"v", 5, false⟩ : CachedResult).isError = false :=
  ⟨by decide,
   c2_cache_error_exclusion.2.2.2.2 ⟨[("k", ⟨"v", 5, false⟩)], 300⟩ 10 "k" ⟨"v", 5, false⟩
     (by decide) (by decide)⟩

/-- C3: `Get` returns an entry exactly when it is present and has not outlived
the TTL; the background sweep never changes what `Get` observes (for any sweep
instant no later than the read); a `Set` followed by an immediate `Get` yields
the entry; and a `Get` more than `ttl` after the entry's timestamp misses. -/
theorem c3_get_ttl_semantics :
    (∀ (c : ResultCache) (now : Nat) (k : String) (e : CachedResult),
        c.get now k = some e ↔
          c.store.lookup k = some e ∧ now - e.timestamp ≤ c.ttl) ∧
    (∀ (c : ResultCache) (sweepT now : Nat) (k : String),
        (c.store.map Prod.fst).Nodup → sweepT ≤ now →
        (c.cleanupExpired sweepT).get now k = c.get now k) ∧
    (∀ (c : ResultCache) (now : Nat) (k content : String),
        (c.set now k content false).get now k = some ⟨content, now, false⟩) ∧
    (∀ (c : ResultCache) (later : Nat) (k : String) (e : CachedResult),
        c.store.lookup k = some e → c.ttl < later - e.timestamp →
        c.get later k = none) := by
  refine ⟨?_, ?_, ?_, ?_⟩
  · intro c now k e
    unfold ResultCache.get
    cases hlk : c.store.lookup k with
    | none => simp
    | some r =>
        by_cases hexp : c.ttl < now - r.timestamp
        · simp only [hexp, if_true]
          constructor
          · intro h; cases h
          · rintro ⟨he, hle⟩
            have : r = e := by simpa using he
            subst this
            omega
        · simp only [hexp, if_false]
          constructor
          · intro h
            have : r = e := by simpa using h
            subst this
            exact ⟨rfl, by omega⟩
          · rintro ⟨he, -⟩
            exact he
  · intro c sweepT now k hnd hle
    unfold ResultCache.get ResultCache.cleanupExpired
    simp only
    rw [lookup_filter_nodup hnd]
    cases hlk : c.store.lookup k with
    | none => simp
    | some r =>
        by_cases hkeep : sweepT - r.timestamp ≤ c.ttl
        · simp [hkeep]
        · have hexp2 : c.ttl < now - r.timestamp := by omega
          simp [hkeep, hexp2]
  · intro c now k content
    unfold ResultCache.get ResultCache.set
    simp only [lookup_setStore, if_pos rfl]
    simp
  · intro c later k e hlk hexp
    unfold ResultCache.get
    simp [hlk, hexp]

/-- Concrete instantiation of `c3_get_ttl_semantics` (ttl 300): immediate
`Get` after `Set` hits; `Get` 490 ticks later misses; a sweep in between does
not change the miss. -/
theorem c3_witness :
    ((mkCache 300).set 10 "k" "v" false).get 10 "k" = some ⟨"v", 10, false⟩ ∧
    ((mkCache 300).set 10 "k" "v" false).get 500 "k" = none ∧
    (((mkCache 300).set 10 "k" "v" false).cleanupExpired 400).get 500 "k" =
      ((mkCache 300).set 10 "k" "v" false).get 500 "k" :=
  ⟨c3_get_ttl_semantics.2.2.1 (mkCache 300) 10 "k" "v",
   c3_get_ttl_semantics.2.2.2 ((mkCache 300).set 10 "k" "v" false) 500 "k"
     ⟨"v", 10, false⟩ (by decide) (by decide),
   c3_get_ttl_semantics.2.1 ((mkCache 300).set 10 "k" "v" false) 400 500 "k"
     (by decide) (by decide)⟩

/-! ## C9 / C10 / C8 -/

/-- C9 (code evaluation at the failing input): the transport closes (the
input stream ends) while the call with id 1 is pending.  `readResponses`
exits its loop and performs no delivery at all, so the caller blocked on its
channel in `call` is never unblocked — contrary to the claim that every
pending caller receives a `TransportError`.  Nothing else in the client sends
on or closes pending channels. -/
theorem c9_pending_caller_never_unblocked :
    readResponses [1] [] = [] ∧
    callerUnblocked (readResponses [1] []) 1 = false ∧
    readResponses [1] [.malformed] = [] ∧
    readResponses [1] [.valid (some (.num 2)) none .null] = [] :=
  ⟨rfl, rfl, rfl, rfl⟩

/-- C10: when JSON serialization of the argument map fails, `generateCacheKey`
returns the bare tool name, so any two unserializable argument maps for the
same tool collapse to the same cache key. -/
theorem c10_marshal_failure_key_collision (T : String) (A1 A2 : List (String × JVal))
    (h1 : jsonMarshalObj A1 = none) (h2 : jsonMarshalObj A2 = none) :
    generateCacheKey T A1 = T ∧ generateCacheKey T A2 = T ∧
    generateCacheKey T A1 = generateCacheKey T A2 := by
  unfold generateCacheKey
  rw [h1, h2]
  exact ⟨rfl, rfl, rfl⟩

/-- Concrete instantiation of `c10_marshal_failure_key_collision`: two
argument maps holding an unserializable value under different keys (hence
different maps) share the key `"create_resource"`. -/
theorem c10_witness :
    jsonMarshalObj [("a", JVal.unser 0)] = none ∧
    jsonMarshalObj [("b", JVal.unser 1)] = none ∧
    [("a", JVal.unser 0)].map (Prod.fst (β := JVal)) ≠
      [("b", JVal.unser 1)].map (Prod.fst (β := JVal)) ∧
    generateCacheKey "create_resource" [("a", JVal.unser 0)] =
      generateCacheKey "create_resource" [("b", JVal.unser 1)] :=
  ⟨rfl, rfl, by decide,
   ((c10_marshal_failure_key_collision "create_resource" [("a", JVal.unser 0)]
      [("b", JVal.unser 1)] rfl rfl).2.2).trans
     (c10_marshal_failure_key_collision "create_resource" [("b", JVal.unser 1)]
      [("b", JVal.unser 1)] rfl rfl).2.2⟩

/-- A transport oracle whose `tools/call` answer is a successful text result. -/
def rpcTextOk : String → JVal → RPCOutcome := fun _ _ =>
  .response none
    (.obj [("content", .arr [.obj [("type", .str "text"), ("text", .str "hi")]]),
           ("isError", .bool false)])

/-- C8 counterexample: on an initialized client whose cached catalog is EMPTY
(`"missing_tool"` is certainly absent from it), `CallTool` does not fail with
any `ToolNotFoundError` — no such validation (or error type) exists in the
client; the request is dispatched and the endpoint's successful answer is
returned. -/
theorem c8_counterexample :
    (callToolStdio (.ok ()) rpcTextOk ⟨true, []⟩ "missing_tool" []).toOption.map
      (fun r => (r.isError, r.content.map contentText)) = some (false, [some "hi"]) := rfl

/-- C8 amended: `CallTool` performs no client-side validation of the tool
name against the cached catalog; on an initialized client it is exactly the
dispatch of a `tools/call` request — its outcome is entirely determined by
the transport's answer and is independent of the catalog contents. -/
theorem c8_no_catalog_validation (init : Except String Unit)
    (rpc : String → JVal → RPCOutcome) (client : StdioClient)
    (name : String) (args : List (String × JVal))
    (h : client.initialized = true) :
    callToolStdio init rpc client name args = dispatchToolCall rpc name args := by
  simp [callToolStdio, h]

/-- Concrete instantiation of `c8_no_catalog_validation`. -/
theorem c8_witness :
    callToolStdio (.ok ()) rpcTextOk ⟨true, []⟩ "missing_tool" [] =
      dispatchToolCall rpcTextOk "missing_tool" [] :=
  c8_no_catalog_validation (.ok ()) rpcTextOk ⟨true, []⟩ "missing_tool" [] rfl

/-! ## C4: determinism of the cache key under argument-map enumeration order -/

theorem serFields_keys : ∀ {l : List (String × JVal)} {kvs : List (String × String)},
    serFields l = some kvs → kvs.map Prod.fst = l.map Prod.fst := by
  intro l
  induction l with
  | nil =>
      intro kvs h
      simp only [serFields] at h
      injection h with h
      rw [← h]
      rfl
  | cons p tl ih =>
      obtain ⟨k, v⟩ := p
      intro kvs h
      simp only [serFields] at h
      cases hv : serJVal v with
      | none => rw [hv] at h; cases h
      | some s =>
          rw [hv] at h
          cases ht : serFields tl with
          | none => rw [ht] at h; cases h
          | some rest =>
              rw [ht] at h
              injection h with h
              rw [← h]
              simp [ih ht]

theorem serFields_perm {l1 l2 : List (String × JVal)} (h : l1.Perm l2) :
    (serFields l1 = none ↔ serFields l2 = none) ∧
    ∀ kvs1 kvs2, serFields l1 = some kvs1 → serFields l2 = some kvs2 →
      kvs1.Perm kvs2 := by
  induction h with
  | nil =>
      refine ⟨Iff.rfl, ?_⟩
      intro kvs1 kvs2 h1 h2
      simp only [serFields] at h1 h2
      injection h1 with h1
      injection h2 with h2
      rw [← h1, ← h2]
  | cons x hperm ih =>
      obtain ⟨k, v⟩ := x
      rename_i l1' l2'
      cases hv : serJVal v with
      | none =>
          refine ⟨by simp [serFields, hv], ?_⟩
          intro kvs1 kvs2 h1 h2
          simp [serFields, hv] at h1
      | some s =>
          cases ht1 : serFields l1' with
          | none =>
              have ht2 : serFields l2' = none := ih.1.1 ht1
              refine ⟨by simp [serFields, hv, ht1, ht2], ?_⟩
              intro kvs1 kvs2 h1 h2
              simp [serFields, hv, ht1] at h1
          | some rest1 =>
              cases ht2 : serFields l2' with
              | none =>
                  have := ih.1.2 ht2
                  rw [ht1] at this
                  cases this
              | some rest2 =>
                  have hp := ih.2 rest1 rest2 ht1 ht2
                  refine ⟨by simp [serFields, hv, ht1, ht2], ?_⟩
                  intro kvs1 kvs2 h1 h2
                  simp only [serFields, hv, ht1, ht2] at h1 h2
                  injection h1 with h1
                  injection h2 with h2
                  rw [← h1, ← h2]
                  exact hp.cons _
  | swap x y l =>
      obtain ⟨kx, vx⟩ := x
      obtain ⟨ky, vy⟩ := y
      cases hvx : serJVal vx with
      | none =>
          refine ⟨?_, ?_⟩
          · cases hvy : serJVal vy <;> simp [serFields, hvx, hvy]
          · intro kvs1 kvs2 h1 h2
            simp [serFields, hvx] at h2
      | some sx =>
          cases hvy : serJVal vy with
          | none =>
              refine ⟨by simp [serFields, hvx, hvy], ?_⟩
              intro kvs1 kvs2 h1 h2
              simp [serFields, hvx, hvy] at h1
          | some sy =>
              cases ht : serFields l with
              | none =>
                  refine ⟨by simp [serFields, hvx, hvy, ht], ?_⟩
                  intro kvs1 kvs2 h1 h2
                  simp [serFields, hvx, hvy, ht] at h1
              | some rest =>
                  refine ⟨by simp [serFields, hvx, hvy, ht], ?_⟩
                  intro kvs1 kvs2 h1 h2
                  simp only [serFields, hvx, hvy, ht] at h1 h2
                  injection h1 with h1
                  injection h2 with h2
                  rw [← h1, ← h2]
                  exact List.Perm.swap _ _ _
  | @trans l1x lmid l3x hp1 hp2 ih1 ih2 =>
      refine ⟨ih1.1.trans ih2.1, ?_⟩
      intro kvs1 kvs3 h1 h3
      cases hmid : serFields lmid with
      | none =>
          have := ih1.1.2 hmid
          rw [h1] at this
          cases this
      | some kvs2 =>
          exact (ih1.2 kvs1 kvs2 h1 hmid).trans (ih2.2 kvs2 kvs3 hmid h3)

theorem sortFields_eq_of_perm {kvs1 kvs2 : List (String × String)}
    (hperm : kvs1.Perm kvs2) (hnd : (kvs1.map Prod.fst).Nodup) :
    sortFields kvs1 = sortFields kvs2 := by
  haveI htotal : IsTotal (String × String) (fun p q => p.1 ≤ q.1) :=
    ⟨fun a b => le_total a.1 b.1⟩
  haveI htrans : IsTrans (String × String) (fun p q => p.1 ≤ q.1) :=
    ⟨fun a b c hab hbc => le_trans hab hbc⟩
  haveI hanti : IsAntisymm (String × String) (fun p q => p.1 < q.1) :=
    ⟨fun a b h1 h2 => absurd (lt_trans h1 h2) (lt_irrefl _)⟩
  have hs1 : (sortFields kvs1).Pairwise (fun p q : String × String => p.1 ≤ q.1) :=
    List.sorted_insertionSort _ kvs1
  have hs2 : (sortFields kvs2).Pairwise (fun p q : String × String => p.1 ≤ q.1) :=
    List.sorted_insertionSort _ kvs2
  have hp : (sortFields kvs1).Perm (sortFields kvs2) :=
    (List.perm_insertionSort _ kvs1).trans
      (hperm.trans (List.perm_insertionSort _ kvs2).symm)
  have hnd2 : (kvs2.map Prod.fst).Nodup := ((hperm.map Prod.fst).nodup_iff).1 hnd
  have hne1 : (sortFields kvs1).Pairwise (fun p q : String × String => p.1 ≠ q.1) := by
    have hnds : ((sortFields kvs1).map Prod.fst).Nodup :=
      (((List.perm_insertionSort _ kvs1).map Prod.fst).nodup_iff).2 hnd
    exact List.pairwise_map.1 hnds
  have hne2 : (sortFields kvs2).Pairwise (fun p q : String × String => p.1 ≠ q.1) := by
    have hnds : ((sortFields kvs2).map Prod.fst).Nodup :=
      (((List.perm_insertionSort _ kvs2).map Prod.fst).nodup_iff).2 hnd2
    exact List.pairwise_map.1 hnds
  have hstrict1 : (sortFields kvs1).Pairwise (fun p q : String × String => p.1 < q.1) :=
    (hs1.and hne1).imp fun h => lt_of_le_of_ne h.1 h.2
  have hstrict2 : (sortFields kvs2).Pairwise (fun p q : String × String => p.1 < q.1) :=
    (hs2.and hne2).imp fun h => lt_of_le_of_ne h.1 h.2
  exact List.eq_of_perm_of_sorted hp hstrict1 hstrict2

theorem serObj_eq_of_perm {A1 A2 : List (String × JVal)}
    (hnd : (A1.map Prod.fst).Nodup) (hperm : A1.Perm A2) :
    jsonMarshalObj A1 = jsonMarshalObj A2 := by
  unfold jsonMarshalObj
  obtain ⟨hiff, hsome⟩ := serFields_perm hperm
  cases h1 : serFields A1 with
  | none =>
      have h2 : serFields A2 = none := hiff.1 h1
      simp [serJVal, h1, h2]
  | some kvs1 =>
      cases h2 : serFields A2 with
      | none =>
          have := hiff.2 h2
          rw [h1] at this
          cases this
      | some kvs2 =>
          have hp : kvs1.Perm kvs2 := hsome _ _ h1 h2
          have hk1 : kvs1.map Prod.fst = A1.map Prod.fst := serFields_keys h1
          have hsorteq : sortFields kvs1 = sortFields kvs2 :=
            sortFields_eq_of_perm hp (by rw [hk1]; exact hnd)
          simp [serJVal, h1, h2, hsorteq]

/-- C4: `generateCacheKey` is a deterministic function of the tool name and
the canonicalized arguments — two argument maps that are equal as sets of
key/value pairs (a permutation of each other, with no duplicate keys) yield
the same cache key, because Go's `json.Marshal` emits map keys in sorted
order before hashing. -/
theorem c4_cache_key_deterministic (T : String) (A1 A2 : List (String × JVal))
    (hnd : (A1.map Prod.fst).Nodup) (hperm : A1.Perm A2) :
    generateCacheKey T A1 = generateCacheKey T A2 := by
  unfold generateCacheKey
  rw [serObj_eq_of_perm hnd hperm]

/-- Concrete instantiation of `c4_cache_key_deterministic`: the two
enumeration orders of `{a: 1, b: "x"}` share one cache key. -/
theorem c4_witness :
    ([("a", JVal.num 1), ("b", JVal.str "x")].map (Prod.fst (β := JVal))).Nodup ∧
    generateCacheKey "t" [("a", JVal.num 1), ("b", JVal.str "x")] =
      generateCacheKey "t" [("b", JVal.str "x"), ("a", JVal.num 1)] :=
  ⟨by decide,
   c4_cache_key_deterministic "t" _ _ (by decide) (List.Perm.swap _ _ _)⟩

/-! ## C1: loop termination and iteration ceiling -/

theorem doneMetadata_lookup_iterations (i : Nat) (fr pr : String) (ta h m : Nat)
    (c : ResultCache) :
    (doneMetadata i fr pr ta h m c).lookup "iterations" = some (.nat i) := rfl

theorem doneMetadata_lookup_max (i : Nat) (fr pr : String) (ta h m : Nat)
    (c : ResultCache) :
    (doneMetadata i fr pr ta h m c).lookup "max_reached" = none := rfl

theorem maxMetadata_lookup_iterations (i : Nat) (pr : String) (ta h m : Nat)
    (c : ResultCache) :
    (maxMetadata i pr ta h m c).lookup "iterations" = some (.nat i) := rfl

theorem maxMetadata_lookup_max (i : Nat) (pr : String) (ta h m : Nat)
    (c : ResultCache) :
    (maxMetadata i pr ta h m c).lookup "max_reached" = some (.bool true) := rfl

/-- If the Adapter never fails, the whole call never fails: the only `.error`
exit of the loop is the Adapter-error branch. -/
theorem runLoop_total {env : Env} {now : Nat}
    (hok : ∀ p h, ∃ r, env.chat p env.tools h = .ok r) :
    ∀ (fuel iteration : Nat) (history : List Message) (allCalls : List ToolCall)
      (allResults : List ToolResult) (hits misses : Nat) (prompt : String)
      (cache : ResultCache),
      ∃ out, runLoop env now fuel iteration history allCalls allResults hits misses
        prompt cache = .ok out := by
  intro fuel
  induction fuel with
  | zero =>
      intro iteration history allCalls allResults hits misses prompt cache
      exact ⟨_, rfl⟩
  | succ fuel ih =>
      intro iteration history allCalls allResults hits misses prompt cache
      obtain ⟨r, hr⟩ := hok prompt history
      cases htc : r.toolCalls with
      | nil =>
          refine ⟨({ response := r.content, toolCalls := allCalls, toolResults := allResults,
                     metadata := doneMetadata (iteration + 1) r.finishReason env.providerName
                       env.tools.length hits misses cache }, cache), ?_⟩
          simp only [runLoop, hr, htc, List.isEmpty_nil, if_true]
      | cons a as =>
          simp only [runLoop, hr, htc, List.isEmpty_cons, Bool.false_eq_true, if_false]
          exact ih _ _ _ _ _ _ _ _

/-- If the Adapter's response at iteration `N` (equivalently: when handed the
history of `2*(N-1)` turns accumulated by then) carries no invocation, while
every earlier response carries at least one, the loop ends in `Done` at
iteration `N` with metadata `iterations = N`. -/
theorem runLoop_done_at {env : Env} {now : Nat} {N : Nat}
    (hok : ∀ p h, ∃ r, env.chat p env.tools h = .ok r)
    (hbefore : ∀ p h r i, i < N - 1 → h.length = 2 * i →
        env.chat p env.tools h = .ok r → r.toolCalls ≠ [])
    (hatN : ∀ p h r, h.length = 2 * (N - 1) →
        env.chat p env.tools h = .ok r → r.toolCalls = []) :
    ∀ (fuel iteration : Nat) (history : List Message) (allCalls : List ToolCall)
      (allResults : List ToolResult) (hits misses : Nat) (prompt : String)
      (cache : ResultCache),
      history.length = 2 * iteration →
      iteration + fuel = MaxToolIterations →
      iteration < N → N ≤ MaxToolIterations →
      ∃ resp cache2,
        runLoop env now fuel iteration history allCalls allResults hits misses prompt cache
          = .ok (resp, cache2) ∧
        resp.metadata.lookup "iterations" = some (.nat N) ∧
        resp.metadata.lookup "max_reached" = none := by
  intro fuel
  induction fuel with
  | zero =>
      intro iteration history allCalls allResults hits misses prompt cache
      intro hhist hfuel hlt hN5
      omega
  | succ fuel ih =>
      intro iteration history allCalls allResults hits misses prompt cache
      intro hhist hfuel hlt hN5
      obtain ⟨r, hr⟩ := hok prompt history
      by_cases hN : iteration + 1 = N
      · have htc : r.toolCalls = [] := hatN prompt history r (by omega) hr
        have heq : runLoop env now (fuel + 1) iteration history allCalls allResults hits
            misses prompt cache
            = .ok ({ response := r.content, toolCalls := allCalls,
                     toolResults := allResults,
                     metadata := doneMetadata (iteration + 1) r.finishReason
                       env.providerName env.tools.length hits misses cache }, cache) := by
          simp only [runLoop, hr, htc, List.isEmpty_nil, if_true]
        refine ⟨_, _, heq, ?_, ?_⟩
        · rw [hN]
          exact doneMetadata_lookup_iterations _ _ _ _ _ _ _
        · exact doneMetadata_lookup_max _ _ _ _ _ _ _
      · have htc : r.toolCalls ≠ [] :=
          hbefore prompt history r iteration (by omega) hhist hr
        cases htcl : r.toolCalls with
        | nil => exact absurd htcl htc
        | cons a as =>
            simp only [runLoop, hr, htcl, List.isEmpty_cons, Bool.false_eq_true, if_false]
            apply ih
            · simp [hhist]
              omega
            · omega
            · omega
            · exact hN5

/-- If every Adapter response carries at least one invocation, the loop makes
exactly `fuel` more passes and ends in the iteration-ceiling outcome. -/
theorem runLoop_ceiling {env : Env} {now : Nat}
    (hall : ∀ p h, ∃ r, env.chat p env.tools h = .ok r ∧ r.toolCalls ≠ []) :
    ∀ (fuel iteration : Nat) (history : List Message) (allCalls : List ToolCall)
      (allResults : List ToolResult) (hits misses : Nat) (prompt : String)
      (cache : ResultCache),
      ∃ resp cache2,
        runLoop env now fuel iteration history allCalls allResults hits misses prompt cache
          = .ok (resp, cache2) ∧
        resp.response = maxIterationsMessage ∧
        resp.metadata.lookup "iterations" = some (.nat (iteration + fuel)) ∧
        resp.metadata.lookup "max_reached" = some (.bool true) := by
  intro fuel
  induction fuel with
  | zero =>
      intro iteration history allCalls allResults hits misses prompt cache
      exact ⟨_, _, rfl, rfl, maxMetadata_lookup_iterations _ _ _ _ _ _, rfl⟩
  | succ fuel ih =>
      intro iteration history allCalls allResults hits misses prompt cache
      obtain ⟨r, hr, htc⟩ := hall prompt history
      cases htcl : r.toolCalls with
      | nil => exact absurd htcl htc
      | cons a as =>
          simp only [runLoop, hr, htcl, List.isEmpty_cons, Bool.false_eq_true, if_false]
          obtain ⟨resp, cache2, heq, hresp, hiter, hmax⟩ := ih (iteration + 1) _ _ _ _ _ _ _
          refine ⟨resp, cache2, heq, hresp, ?_, hmax⟩
          have harith : iteration + 1 + fuel = iteration + (fuel + 1) := by omega
          rw [hiter, harith]

/-- C1: (a) if the Adapter returns a response with zero invocations at
iteration `N ≤ 5` (and at least one at each earlier iteration, the iteration
number being determined by the accumulated history of `2*(i-1)` turns), the
call returns a Done-style `ChatResponse` (no `max_reached` marker) with
metadata `iterations = N` and nil error; (b) if every Adapter response
carries at least one invocation, the call returns after exactly 5 iterations
with the fixed advisory message, as a non-error outcome. -/
theorem c1_termination_and_ceiling (env : Env) (now : Nat) (cache : ResultCache)
    (req : ChatRequest) :
    (∀ N, 1 ≤ N → N ≤ MaxToolIterations →
      (∀ p h, ∃ r, env.chat p env.tools h = .ok r) →
      (∀ p h r i, i < N - 1 → h.length = 2 * i →
          env.chat p env.tools h = .ok r → r.toolCalls ≠ []) →
      (∀ p h r, h.length = 2 * (N - 1) →
          env.chat p env.tools h = .ok r → r.toolCalls = []) →
      ∃ resp cache2, processPrompt env now cache req = .ok (resp, cache2) ∧
        resp.metadata.lookup "iterations" = some (.nat N) ∧
        resp.metadata.lookup "max_reached" = none) ∧
    ((∀ p h, ∃ r, env.chat p env.tools h = .ok r ∧ r.toolCalls ≠ []) →
      ∃ resp cache2, processPrompt env now cache req = .ok (resp, cache2) ∧
        resp.response = maxIterationsMessage ∧
        resp.metadata.lookup "iterations" = some (.nat 5) ∧
        resp.metadata.lookup "max_reached" = some (.bool true)) := by
  constructor
  · intro N h1 h5 hok hbefore hatN
    exact runLoop_done_at hok hbefore hatN MaxToolIterations 0 [] [] [] 0 0 req.prompt cache
      rfl rfl (by omega) h5
  · intro hall
    exact runLoop_ceiling hall MaxToolIterations 0 [] [] [] 0 0 req.prompt cache

/-- Adapter oracle for the Done-at-2 instantiation: one invocation on the
first call (empty history), none afterwards. -/
def envC1a : Env :=
  { chat := fun _ _ h =>
      if h.length = 0 then .ok ⟨"calling", [⟨"i1", "t", [("z", JVal.unser 0)]⟩], "stop"⟩
      else .ok ⟨"final", [], "stop"⟩,
    callTool := fun _ _ => .error "down",
    providerName := "p", tools := [] }

/-- Adapter oracle for the ceiling instantiation: always one invocation. -/
def envC1b : Env :=
  { chat := fun _ _ _ => .ok ⟨"again", [⟨"i1", "t", [("z", JVal.unser 0)]⟩], "stop"⟩,
    callTool := fun _ _ => .error "down",
    providerName := "p", tools := [] }

/-- Concrete instantiation of `c1_termination_and_ceiling`: with `envC1a` the
call finishes Done at iteration 2; with `envC1b` it hits the ceiling at 5. -/
theorem c1_witness :
    (∃ resp cache2,
        processPrompt envC1a 0 (mkCache 300) ⟨"go", "", ""⟩ = .ok (resp, cache2) ∧
        resp.metadata.lookup "iterations" = some (.nat 2) ∧
        resp.metadata.lookup "max_reached" = none) ∧
    (∃ resp cache2,
        processPrompt envC1b 0 (mkCache 300) ⟨"go", "", ""⟩ = .ok (resp, cache2) ∧
        resp.response = maxIterationsMessage ∧
        resp.metadata.lookup "iterations" = some (.nat 5) ∧
        resp.metadata.lookup "max_reached" = some (.bool true)) := by
  constructor
  · apply (c1_termination_and_ceiling envC1a 0 (mkCache 300) ⟨"go", "", ""⟩).1 2
      (by omega) (by decide)
    · intro p h
      by_cases hl : h.length = 0 <;> simp [envC1a, hl]
    · intro p h r i hi hlen hc
      have hl : h.length = 0 := by omega
      simp only [envC1a, hl, if_pos rfl] at hc
      injection hc with hc
      rw [← hc]
      exact List.cons_ne_nil _ _
    · intro p h r hlen hc
      simp only [envC1a, hlen] at hc
      have hcond : ¬(2 * (2 - 1) = 0) := by decide
      rw [if_neg hcond] at hc
      injection hc with hc
      rw [← hc]
  · apply (c1_termination_and_ceiling envC1b 0 (mkCache 300) ⟨"go", "", ""⟩).2
    intro p h
    exact ⟨_, rfl, List.cons_ne_nil _ _⟩

/-! ## C6: invocation/result trace -/

theorem execOne_trace_shape (env : Env) (now : Nat) (tc : AIToolCall) (st : ExecState) :
    ∃ content isError,
      (execOne env now tc st).toolResults = st.toolResults ++ [⟨tc.id, content, isError⟩] ∧
      (execOne env now tc st).allToolResults
        = st.allToolResults ++ [⟨tc.id, tc.name, content, isError⟩] ∧
      ((execOne env now tc st).allToolCalls = st.allToolCalls ∨
       (execOne env now tc st).allToolCalls
         = st.allToolCalls ++ [⟨tc.id, tc.name, tc.arguments⟩]) := by
  simp only [execOne]
  cases hget : st.cache.get now (generateCacheKey tc.name tc.arguments) with
  | some cached => exact ⟨cached.content, cached.isError, rfl, rfl, .inr rfl⟩
  | none =>
      cases hct : env.callTool tc.name tc.arguments with
      | error e => exact ⟨_, _, rfl, rfl, .inl rfl⟩
      | ok r => exact ⟨_, _, rfl, rfl, .inr rfl⟩

/-- C6 amended: resolving the invocations of one iteration appends exactly one
`ToolResult` per invocation, in the original invocation order, both to the
iteration's result list and to the returned trace; the `ToolCall` record list,
however, only grows by an order-preserving SUBSEQUENCE of the invocations —
the transport-error path `continue`s past the `ToolCall` append, so failed
invocations appear in `ToolResults` but not in `ToolCalls`. -/
theorem c6_trace_per_invocation (env : Env) (now : Nat) (tcs : List AIToolCall)
    (st : ExecState) :
    ((execToolCalls env now tcs st).toolResults).map AIToolResult.toolCallID
      = (st.toolResults).map AIToolResult.toolCallID ++ tcs.map AIToolCall.id ∧
    ((execToolCalls env now tcs st).allToolResults).map ToolResult.toolCallID
      = (st.allToolResults).map ToolResult.toolCallID ++ tcs.map AIToolCall.id ∧
    (((execToolCalls env now tcs st).allToolCalls).map ToolCall.id).Sublist
      ((st.allToolCalls).map ToolCall.id ++ tcs.map AIToolCall.id) := by
  induction tcs generalizing st with
  | nil => simp [execToolCalls]
  | cons tc rest ih =>
      obtain ⟨content, isError, h1, h2, h3⟩ := execOne_trace_shape env now tc st
      obtain ⟨ih1, ih2, ih3⟩ := ih (execOne env now tc st)
      simp only [execToolCalls]
      refine ⟨?_, ?_, ?_⟩
      · rw [ih1, h1]
        simp
      · rw [ih2, h2]
        simp
      · rcases h3 with h3 | h3
        · rw [h3] at ih3
          refine ih3.trans ?_
          simp only [List.map_cons]
          exact List.Sublist.append_left (List.sublist_cons_self _ _) _
        · rw [h3] at ih3
          simpa [List.append_assoc] using ih3

/-- Adapter/tool oracles exhibiting the C6 counterexample: one invocation that
fails at the transport level, then a tool-free response. -/
def envC6 : Env :=
  { chat := fun _ _ h =>
      if h.length = 0 then .ok ⟨"calling", [⟨"id1", "t", []⟩], "stop"⟩
      else .ok ⟨"done", [], "stop"⟩,
    callTool := fun _ _ => .error "boom",
    providerName := "p", tools := [] }

/-- C6 counterexample: in the run where the single invocation's `CallTool`
fails at the transport level, the returned `ChatResponse` contains its
`ToolResult` but NO `ToolCall` record (`tool_calls` is empty) — the claim that
every invocation contributes both a `ToolCall` and a `ToolResult` to the
returned lists is false on the code. -/
theorem c6_counterexample :
    ((processPrompt envC6 0 (mkCache 300) ⟨"go", "", ""⟩).toOption.map
      (fun out => (out.1.toolCalls.map ToolCall.id,
                   out.1.toolResults.map (fun r => (r.toolCallID, r.name, r.isError)))))
      = some ([], [("id1", "t", true)]) := rfl

/-! ## C7: transport errors are absorbed -/

/-- C7: if the Adapter's first response carries the single invocation `X` and
`CallTool` fails for it with transport error `e`, then (a) the loop absorbs
the failure: the run continues into a second Adapter call (pinned here by a
hypothesis on what the Adapter answers when handed the history whose
tool-result turn carries exactly the one error result for `X`), and the call
returns `.ok` with exactly one `ToolResult` for `X`, marked `IsError` with the
message `Error calling tool <name>: <err>`, and metadata `iterations = 2`;
and (b) whenever the Adapter never fails, `ProcessPrompt` never returns a
non-nil error — only Adapter failures abort the call. -/
theorem c7_transport_error_absorbed (env : Env) (now : Nat) (cache : ResultCache)
    (req : ChatRequest) (c fr : String) (X : AIToolCall) (e : String)
    (h0 : env.chat req.prompt env.tools [] = .ok ⟨c, [X], fr⟩)
    (hget : cache.get now (generateCacheKey X.name X.arguments) = none)
    (hcall : env.callTool X.name X.arguments = .error e) :
    (∀ (tc : AIToolCall) (st : ExecState) (e2 : String) (rest : List AIToolCall),
        st.cache.get now (generateCacheKey tc.name tc.arguments) = none →
        env.callTool tc.name tc.arguments = .error e2 →
        (execOne env now tc st).toolResults
          = st.toolResults ++ [⟨tc.id, "Error calling tool " ++ tc.name ++ ": " ++ e2,
              true⟩] ∧
        (execOne env now tc st).allToolResults
          = st.allToolResults ++ [⟨tc.id, tc.name,
              "Error calling tool " ++ tc.name ++ ": " ++ e2, true⟩] ∧
        (execOne env now tc st).cache = st.cache ∧
        execToolCalls env now (tc :: rest) st
          = execToolCalls env now rest (execOne env now tc st)) ∧
    (∀ r2, env.chat (formatToolResultsForPrompt
          [⟨X.id, "Error calling tool " ++ X.name ++ ": " ++ e, true⟩]) env.tools
          [⟨"assistant", c, [], []⟩,
           ⟨"assistant", "", [],
            [⟨X.id, "Error calling tool " ++ X.name ++ ": " ++ e, true⟩]⟩]
          = .ok r2 → r2.toolCalls = [] →
        processPrompt env now cache req
          = .ok ({ response := r2.content, toolCalls := [],
                   toolResults := [⟨X.id, X.name,
                     "Error calling tool " ++ X.name ++ ": " ++ e, true⟩],
                   metadata := doneMetadata 2 r2.finishReason env.providerName
                     env.tools.length 0 1 cache }, cache)) ∧
    ((∀ p h, ∃ r, env.chat p env.tools h = .ok r) →
        ∃ out, processPrompt env now cache req = .ok out) := by
  refine ⟨?_, ?_, ?_⟩
  · intro tc st e2 rest hg2 hc2
    refine ⟨?_, ?_, ?_, rfl⟩ <;> simp only [execOne, hg2, hc2]
  · intro r2 h1 htc2
    show runLoop env now (4 + 1) 0 [] [] [] 0 0 req.prompt cache = _
    simp only [runLoop, h0, List.isEmpty_cons, Bool.false_eq_true, if_false,
      execToolCalls, execOne, hget, hcall, List.nil_append, List.singleton_append]
    show runLoop env now (3 + 1) 1 _ _ _ _ _ _ _ = _
    simp only [runLoop, h1, htc2, List.isEmpty_nil, if_true]
  · intro hok
    exact runLoop_total hok MaxToolIterations 0 [] [] [] 0 0 req.prompt cache

/-- Oracles for the C7 instantiation. -/
def envC7 : Env :=
  { chat := fun _ _ h =>
      if h.length = 0 then .ok ⟨"calling", [⟨"id1", "t", []⟩], "stop"⟩
      else .ok ⟨"done", [], "stop"⟩,
    callTool := fun _ _ => .error "boom",
    providerName := "p", tools := [] }

/-- Concrete instantiation of `c7_transport_error_absorbed`. -/
theorem c7_witness :
    processPrompt envC7 0 (mkCache 300) ⟨"go", "", ""⟩
      = .ok ({ response := "done", toolCalls := [],
               toolResults := [⟨"id1", "t", "Error calling tool t: boom", true⟩],
               metadata := doneMetadata 2 "stop" "p" 0 0 1 (mkCache 300) },
             mkCache 300) :=
  (c7_transport_error_absorbed envC7 0 (mkCache 300) ⟨"go", "", ""⟩ "calling" "stop"
      ⟨"id1", "t", []⟩ "boom" rfl rfl rfl).2.1 ⟨"done", [], "stop"⟩ rfl rfl

/-! ## C5: cache hit/miss accounting -/

/-- C5: (hit) an invocation whose key is present and unexpired is resolved
from the cache: `cache_hits` is incremented, `cache_misses` is not, the cached
content/isError is reused, and the outcome is independent of the
`mcpClient.CallTool` collaborator (it is not consulted); (miss) an invocation
whose key misses increments `cache_misses` only; (scenario) running the same
single-invocation prompt twice within the TTL window: the first call reports
`cache_hits 0, cache_misses 1` and stores the result; the second call, served
from the cache, reports `cache_hits 1, cache_misses 0`, and its outcome is
unchanged under an arbitrary replacement of `CallTool`. -/
theorem c5_cache_accounting :
    (∀ (env : Env) (now : Nat) (tc : AIToolCall) (st : ExecState)
        (cached : CachedResult),
       st.cache.get now (generateCacheKey tc.name tc.arguments) = some cached →
       (execOne env now tc st).cacheHits = st.cacheHits + 1 ∧
       (execOne env now tc st).cacheMisses = st.cacheMisses ∧
       (execOne env now tc st).toolResults
         = st.toolResults ++ [⟨tc.id, cached.content, cached.isError⟩] ∧
       (∀ f, execOne { env with callTool := f } now tc st = execOne env now tc st)) ∧
    (∀ (env : Env) (now : Nat) (tc : AIToolCall) (st : ExecState),
       st.cache.get now (generateCacheKey tc.name tc.arguments) = none →
       (execOne env now tc st).cacheMisses = st.cacheMisses + 1 ∧
       (execOne env now tc st).cacheHits = st.cacheHits) ∧
    (∀ (env : Env) (now1 now2 : Nat) (cache0 : ResultCache) (req : ChatRequest)
        (cA frA cB frB : String) (X : AIToolCall) (r : CallToolResult),
       (∀ p h, h.length = 0 → env.chat p env.tools h = .ok ⟨cA, [X], frA⟩) →
       (∀ p (h : List Message), h.length ≠ 0 →
           env.chat p env.tools h = .ok ⟨cB, [], frB⟩) →
       env.callTool X.name X.arguments = .ok r →
       r.isError = false →
       cache0.get now1 (generateCacheKey X.name X.arguments) = none →
       now2 - now1 ≤ cache0.ttl →
       ∃ resp1 resp2,
         processPrompt env now1 cache0 req
           = .ok (resp1, cache0.set now1 (generateCacheKey X.name X.arguments)
                    (formatToolResult r) false) ∧
         resp1.metadata.lookup "cache_hits" = some (.nat 0) ∧
         resp1.metadata.lookup "cache_misses" = some (.nat 1) ∧
         processPrompt env now2 (cache0.set now1 (generateCacheKey X.name X.arguments)
             (formatToolResult r) false) req
           = .ok (resp2, cache0.set now1 (generateCacheKey X.name X.arguments)
                    (formatToolResult r) false) ∧
         resp2.metadata.lookup "cache_hits" = some (.nat 1) ∧
         resp2.metadata.lookup "cache_misses" = some (.nat 0) ∧
         (∀ f, processPrompt { env with callTool := f } now2
             (cache0.set now1 (generateCacheKey X.name X.arguments)
                (formatToolResult r) false) req
           = processPrompt env now2
               (cache0.set now1 (generateCacheKey X.name X.arguments)
                  (formatToolResult r) false) req)) := by
  refine ⟨?_, ?_, ?_⟩
  · intro env now tc st cached hhit
    refine ⟨?_, ?_, ?_, ?_⟩
    · simp only [execOne, hhit]
    · simp only [execOne, hhit]
    · simp only [execOne, hhit]
    · intro f
      simp only [execOne, hhit]
  · intro env now tc st hm
    simp only [execOne, hm]
    cases hct : env.callTool tc.name tc.arguments with
    | error e => exact ⟨rfl, rfl⟩
    | ok r => exact ⟨rfl, rfl⟩
  · intro env now1 now2 cache0 req cA frA cB frB X r h0 h1 hcall hre hmiss hfresh
    have hchat1 : env.chat req.prompt env.tools [] = .ok ⟨cA, [X], frA⟩ := h0 _ _ rfl
    have hchat2 : env.chat
        (formatToolResultsForPrompt [⟨X.id, formatToolResult r, false⟩]) env.tools
        [⟨"assistant", cA, [], []⟩,
         ⟨"assistant", "", [], [⟨X.id, formatToolResult r, false⟩]⟩]
        = .ok ⟨cB, [], frB⟩ := h1 _ _ (by simp)
    have hhit : (cache0.set now1 (generateCacheKey X.name X.arguments)
          (formatToolResult r) false).get now2 (generateCacheKey X.name X.arguments)
        = some ⟨formatToolResult r, now1, false⟩ := by
      unfold ResultCache.get ResultCache.set
      simp only [lookup_setStore, if_pos rfl]
      have hnlt : ¬(cache0.ttl < now2 - now1) := by omega
      simp [hnlt]
    have hrun1 : processPrompt env now1 cache0 req
        = .ok ({ response := cB, toolCalls := [⟨X.id, X.name, X.arguments⟩],
                 toolResults := [⟨X.id, X.name, formatToolResult r, false⟩],
                 metadata := doneMetadata 2 frB env.providerName env.tools.length 0 1
                   (cache0.set now1 (generateCacheKey X.name X.arguments)
                      (formatToolResult r) false) },
               cache0.set now1 (generateCacheKey X.name X.arguments)
                 (formatToolResult r) false) := by
      show runLoop env now1 (4 + 1) 0 [] [] [] 0 0 req.prompt cache0 = _
      simp only [runLoop, hchat1, List.isEmpty_cons, Bool.false_eq_true, if_false,
        execToolCalls, execOne, hmiss, hcall, hre, List.nil_append, List.singleton_append]
      show runLoop env now1 (3 + 1) 1 _ _ _ _ _ _ _ = _
      simp only [runLoop, hchat2, List.isEmpty_nil, if_true]
    have hrun2 : ∀ (ct : String → List (String × JVal) → Except String CallToolResult),
        processPrompt { env with callTool := ct } now2
          (cache0.set now1 (generateCacheKey X.name X.arguments)
             (formatToolResult r) false) req
        = .ok ({ response := cB, toolCalls := [⟨X.id, X.name, X.arguments⟩],
                 toolResults := [⟨X.id, X.name, formatToolResult r, false⟩],
                 metadata := doneMetadata 2 frB env.providerName env.tools.length 1 0
                   (cache0.set now1 (generateCacheKey X.name X.arguments)
                      (formatToolResult r) false) },
               cache0.set now1 (generateCacheKey X.name X.arguments)
                 (formatToolResult r) false) := by
      intro ct
      show runLoop { env with callTool := ct } now2 (4 + 1) 0 [] [] [] 0 0 req.prompt _ = _
      simp only [runLoop, hchat1, List.isEmpty_cons, Bool.false_eq_true, if_false,
        execToolCalls, execOne, hhit, List.nil_append, List.singleton_append]
      show runLoop { env with callTool := ct } now2 (3 + 1) 1 _ _ _ _ _ _ _ = _
      simp only [runLoop, hchat2, List.isEmpty_nil, if_true]
    refine ⟨_, _, hrun1, rfl, rfl, hrun2 env.callTool, rfl, rfl, ?_⟩
    intro f
    exact (hrun2 f).trans (hrun2 env.callTool).symm

/-- Oracles for the C5 instantiation (spec scenario A/B shape). -/
def envC5 : Env :=
  { chat := fun _ _ h =>
      if h.length = 0 then .ok ⟨"fetching", [⟨"id1", "list_blueprints", []⟩], "stop"⟩
      else .ok ⟨"No blueprints found", [], "stop"⟩,
    callTool := fun _ _ => .ok ⟨[.text "[]"], false⟩,
    providerName := "p", tools := [] }

/-- Concrete instantiation of `c5_cache_accounting`: the hit clause on a
one-entry cache with an unserializable-argument key, and the scenario clause
with `envC5` at instants 10 and 20 (TTL 300). -/
theorem c5_witness :
    ((execOne envC5 0 ⟨"i", "t", [("z", JVal.unser 0)]⟩
        ⟨[], [], [], 0, 0, ⟨[("t", ⟨"v", 0, false⟩)], 300⟩⟩).cacheHits = 0 + 1 ∧
      (execOne envC5 0 ⟨"i", "t", [("z", JVal.unser 0)]⟩
        ⟨[], [], [], 0, 0, ⟨[("t", ⟨"v", 0, false⟩)], 300⟩⟩).cacheMisses = 0) ∧
    (∃ resp1 resp2,
       processPrompt envC5 10 (mkCache 300) ⟨"list blueprints", "", ""⟩
         = .ok (resp1, (mkCache 300).set 10
             (generateCacheKey "list_blueprints" []) "[]" false) ∧
       resp1.metadata.lookup "cache_hits" = some (.nat 0) ∧
       resp1.metadata.lookup "cache_misses" = some (.nat 1) ∧
       processPrompt envC5 20 ((mkCache 300).set 10
           (generateCacheKey "list_blueprints" []) "[]" false)
           ⟨"list blueprints", "", ""⟩
         = .ok (resp2, (mkCache 300).set 10
             (generateCacheKey "list_blueprints" []) "[]" false) ∧
       resp2.metadata.lookup "cache_hits" = some (.nat 1) ∧
       resp2.metadata.lookup "cache_misses" = some (.nat 0) ∧
       (∀ f, processPrompt { envC5 with callTool := f } 20
           ((mkCache 300).set 10 (generateCacheKey "list_blueprints" []) "[]" false)
           ⟨"list blueprints", "", ""⟩
         = processPrompt envC5 20 ((mkCache 300).set 10
             (generateCacheKey "list_blueprints" []) "[]" false)
             ⟨"list blueprints", "", ""⟩)) := by
  constructor
  · have h := c5_cache_accounting.1 envC5 0 ⟨"i", "t", [("z", JVal.unser 0)]⟩
      ⟨[], [], [], 0, 0, ⟨[("t", ⟨"v", 0, false⟩)], 300⟩⟩ ⟨"v", 0, false⟩ (by decide)
    exact ⟨h.1, h.2.1⟩
  · have h := c5_cache_accounting.2.2 envC5 10 20 (mkCache 300)
      ⟨"list blueprints", "", ""⟩ "fetching" "stop" "No blueprints found" "stop"
      ⟨"id1", "list_blueprints", []⟩ ⟨[.text "[]"], false⟩
      (by intro p h hl; simp [envC5, hl]) (by intro p h hl; simp [envC5, hl])
      rfl rfl rfl (by decide)
    exact h

end CloudGenie
